import Mathlib

/-!
Shallow embedding of the SQL lexer in `src/sql/parser/lexer.rs`.

The Rust `Lexer` owns a `Peekable<Chars>` cursor; we model that cursor as the
list of remaining characters (`List Char`), and every mutating method becomes a
function returning its result together with the updated remaining input.
Character classification mirrors the Rust predicates: `is_ascii_digit` is
`Char.isDigit` (exact), `is_whitespace` is the full Unicode White_Space table
(exact), while `is_alphabetic` / `is_alphanumeric` are modelled by the ASCII
classifiers `Char.isAlpha` / `Char.isAlphanum`; theorems whose truth depends on
a character being non-alphabetic therefore restrict that character to ASCII,
where the model agrees with the Unicode tables.
-/

namespace RustSQL

/-- Keyword enumeration of `lexer.rs`. -/
inductive Keyword where
  | Create
  | Table
  | True
  | False
  | Primary
  | Key
  | Int4
deriving DecidableEq, Repr

/-- Models Rust `str::to_uppercase` character by character (`Char.toUpper` is
the ASCII fragment of the Unicode uppercasing used by Rust). -/
def strToUpper (s : String) : String :=
  String.mk (s.data.map Char.toUpper)

/-- Models Rust `str::to_lowercase` character by character (ASCII fragment,
as for `strToUpper`). -/
def strToLower (s : String) : String :=
  String.mk (s.data.map Char.toLower)

/-- Models `Keyword::from_str`: uppercase the candidate and look it up in the
fixed keyword table; `INT` and `INTEGER` both map to `Int4`. -/
def Keyword.fromStr (ident : String) : Option Keyword :=
  match strToUpper ident with
  | "CREATE" => some Keyword.Create
  | "TABLE" => some Keyword.Table
  | "TRUE" => some Keyword.True
  | "FALSE" => some Keyword.False
  | "INT" => some Keyword.Int4
  | "INTEGER" => some Keyword.Int4
  | "PRIMARY" => some Keyword.Primary
  | "KEY" => some Keyword.Key
  | _ => none

/-- Alias so that `Token`'s constructors named `Keyword` and `String` can still
refer to the underlying types in their argument lists. -/
abbrev Kw := Keyword

abbrev Str := String

/-- Token enumeration of `lexer.rs`. -/
inductive Token where
  | Keyword (k : Kw)
  | Ident (s : Str)
  | String (s : Str)
  | Number (s : Str)
  | OpenParen
  | CloseParen
  | Comma
  | Semicolon
  | Asterisk
  | Plus
  | Minus
  | Slash
deriving DecidableEq, Repr

/-- The error type from `crate::error`; the lexer only ever builds the `Parse`
variant carrying a message (spec section 7: a single parse-error kind with a
descriptive message). -/
inductive Error where
  | Parse (msg : Str)
deriving DecidableEq, Repr

/-- Models Rust `char::is_whitespace`: the Unicode White_Space property,
encoded completely. -/
def isWhitespaceRust (c : Char) : Bool :=
  let n := c.toNat
  n = 0x20 || (0x9 ≤ n && n ≤ 0xD) || n = 0x85 || n = 0xA0 || n = 0x1680 ||
    (0x2000 ≤ n && n ≤ 0x200A) || n = 0x2028 || n = 0x2029 || n = 0x202F ||
    n = 0x205F || n = 0x3000

/-- Models Rust `char::is_alphabetic` on the ASCII range (the Unicode
Alphabetic table above U+007F is not embedded; theorems that rely on a
character being non-alphabetic restrict it to ASCII). -/
def isAlphabeticRust (c : Char) : Bool :=
  c.isAlpha

/-- Models Rust `char::is_alphanumeric` on the ASCII range. -/
def isAlphanumericRust (c : Char) : Bool :=
  c.isAlphanum

/-- Models `Lexer::next_if`: consume and return the next character iff it
satisfies the predicate; otherwise leave the cursor unchanged. -/
def next_if (p : Char → Bool) : List Char → Option Char × List Char
  | [] => (none, [])
  | c :: rest => if p c then (some c, rest) else (none, c :: rest)

/-- The loop inside `Lexer::next_while`: greedily consume characters
satisfying the predicate, returning them in order with the rest. -/
def next_while_chars (p : Char → Bool) : List Char → List Char × List Char
  | [] => ([], [])
  | c :: rest =>
    if p c then
      let r := next_while_chars p rest
      (c :: r.1, r.2)
    else ([], c :: rest)

/-- Models `Lexer::next_while`: the accumulated string, filtered to `none`
when empty. -/
def next_while (p : Char → Bool) (s : List Char) : Option Str × List Char :=
  let r := next_while_chars p s
  (if r.1.isEmpty then none else some (String.mk r.1), r.2)

/-- Models `Lexer::erase_whitespace`: skip contiguous whitespace. -/
def erase_whitespace (s : List Char) : List Char :=
  (next_while isWhitespaceRust s).2

/-- Models `Lexer::next_if_token`: consume one character iff the table maps it
to a token, returning that token. -/
def next_if_token (f : Char → Option Token) : List Char → Option Token × List Char
  | [] => (none, [])
  | c :: rest =>
    match f c with
    | some t => (some t, rest)
    | none => (none, c :: rest)

/-- The `loop` of `Lexer::scan_string`: pull characters until a closing quote;
on success return the accumulated contents and the rest, on exhausted input
return the `Unexpected end of string` parse error (the cursor is then fully
consumed). -/
def scan_string_body : List Char → Except Error (List Char × List Char)
  | [] => Except.error (Error.Parse "[Lexer] Unexpected end of string")
  | c :: rest =>
    if c = '\'' then Except.ok ([], rest)
    else
      match scan_string_body rest with
      | Except.ok (v, r) => Except.ok (c :: v, r)
      | Except.error e => Except.error e

/-- Models `Lexer::scan_string`. -/
def scan_string (s : List Char) : Except Error (Option Token) × List Char :=
  match next_if (fun c => c = '\'') s with
  | (none, s1) => (Except.ok none, s1)
  | (some _, s1) =>
    match scan_string_body s1 with
    | Except.ok (v, r) => (Except.ok (some (Token.String (String.mk v))), r)
    | Except.error e => (Except.error e, [])

/-- Models `Lexer::scan_number`: one or more digits, then optionally a dot and
any following digits. -/
def scan_number (s : List Char) : Option Token × List Char :=
  match next_while (fun c => c.isDigit) s with
  | (none, s1) => (none, s1)
  | (some num, s1) =>
    match next_if (fun c => c = '.') s1 with
    | (some sep, s2) =>
      let r := next_while_chars (fun c => c.isDigit) s2
      (some (Token.Number ((num.push sep) ++ String.mk r.1)), r.2)
    | (none, s2) => (some (Token.Number num), s2)

/-- The final expression of `Lexer::scan_ident`:
`Keyword::from_str(&value).map_or(Token::Ident(value.to_lowercase()), Token::Keyword)`. -/
def identOrKeyword (value : Str) : Token :=
  match Keyword.fromStr value with
  | some k => Token.Keyword k
  | none => Token.Ident (strToLower value)

/-- Models `Lexer::scan_ident`: an alphabetic character followed by a run of
alphanumerics or underscores, classified as keyword or lowercased identifier. -/
def scan_ident (s : List Char) : Option Token × List Char :=
  match next_if isAlphabeticRust s with
  | (none, s1) => (none, s1)
  | (some c, s1) =>
    let r := next_while_chars (fun c => isAlphanumericRust c || c = '_') s1
    (some (identOrKeyword (String.mk (c :: r.1))), r.2)

/-- The punctuation table inside `Lexer::scan_symbol`. -/
def symbolToken (c : Char) : Option Token :=
  match c with
  | '*' => some Token.Asterisk
  | '(' => some Token.OpenParen
  | ')' => some Token.CloseParen
  | ',' => some Token.Comma
  | ';' => some Token.Semicolon
  | '+' => some Token.Plus
  | '-' => some Token.Minus
  | '/' => some Token.Slash
  | _ => none

/-- Models `Lexer::scan_symbol`. -/
def scan_symbol (s : List Char) : Option Token × List Char :=
  next_if_token symbolToken s

/-- Models `Lexer::scan`: skip whitespace, then dispatch on the peeked
character in source order (quote, ASCII digit, alphabetic, symbol, end). -/
def scan (s : List Char) : Except Error (Option Token) × List Char :=
  let s1 := erase_whitespace s
  match s1.head? with
  | some c =>
    if c = '\'' then scan_string s1
    else if c.isDigit then
      let r := scan_number s1
      (Except.ok r.1, r.2)
    else if isAlphabeticRust c then
      let r := scan_ident s1
      (Except.ok r.1, r.2)
    else
      let r := scan_symbol s1
      (Except.ok r.1, r.2)
  | none => (Except.ok none, s1)

/-- Models `<Lexer as Iterator>::next`: a scanned token is yielded as `Ok`; a
scan-level error is yielded as `Err`; when `scan` produced nothing, a peek
decides between end of iteration and the `Unexpected character` error (the
offending character is not consumed). -/
def lexerNext (s : List Char) : Option (Except Error Token) × List Char :=
  match scan s with
  | (Except.ok (some t), s1) => (some (Except.ok t), s1)
  | (Except.ok none, s1) =>
    match s1.head? with
    | some c =>
      (some (Except.error (Error.Parse ("[Lexer] Unexpected character " ++ c.toString))), s1)
    | none => (none, s1)
  | (Except.error e, s1) => (some (Except.error e), s1)

/-- Drives the iterator for at most `fuel` pulls, collecting every yielded
element (token or error) until the iterator returns no element. -/
def lexAll (s : List Char) : Nat → List (Except Error Token) × List Char
  | 0 => ([], s)
  | n + 1 =>
    match lexerNext s with
    | (none, s1) => ([], s1)
    | (some r, s1) =>
      let rest := lexAll s1 n
      (r :: rest.1, rest.2)

/-! ## Helper lemmas shared by the claim theorems -/

instance {ε α : Type} [DecidableEq ε] [DecidableEq α] : DecidableEq (Except ε α)
  | Except.ok a, Except.ok b =>
    if h : a = b then isTrue (by rw [h]) else isFalse (fun e => h (by cases e; rfl))
  | Except.ok _, Except.error _ => isFalse (fun e => by cases e)
  | Except.error _, Except.ok _ => isFalse (fun e => by cases e)
  | Except.error a, Except.error b =>
    if h : a = b then isTrue (by rw [h]) else isFalse (fun e => h (by cases e; rfl))

theorem next_while_chars_eq (p : Char → Bool) (s : List Char) :
    next_while_chars p s = (s.takeWhile p, s.dropWhile p) := by
  induction s with
  | nil => rfl
  | cons c rest ih =>
    by_cases h : p c = true
    · simp [next_while_chars, h, ih, List.takeWhile_cons_of_pos h,
        List.dropWhile_cons_of_pos h]
    · simp [next_while_chars, h, List.takeWhile_cons, List.dropWhile_cons]

theorem erase_whitespace_eq (s : List Char) :
    erase_whitespace s = s.dropWhile isWhitespaceRust := by
  simp [erase_whitespace, next_while, next_while_chars_eq]

/-! ## Claim theorems -/

/-- C1: the claim demands that after the unexpected-character error the
offending character is consumed or the iteration terminates. The code does
neither: on input `"@"` every pull yields the very same
`Unexpected character @` error and leaves the cursor unchanged, so `n` pulls
yield `n` identical failures with the remaining input still `"@"`. -/
theorem unexpected_char_error_repeats_forever (n : Nat) :
    lexAll ("@".toList) n =
      (List.replicate n (Except.error (Error.Parse "[Lexer] Unexpected character @")),
        "@".toList) := by
  induction n with
  | zero => rfl
  | succ n ih =>
    have h1 : lexerNext ("@".toList) =
        (some (Except.error (Error.Parse "[Lexer] Unexpected character @")), "@".toList) := rfl
    rw [List.replicate_succ]
    simp only [lexAll, h1, ih]

theorem unexpected_char_error_repeats_forever_witness :
    lexAll ("@".toList) 2 =
      ([Except.error (Error.Parse "[Lexer] Unexpected character @"),
        Except.error (Error.Parse "[Lexer] Unexpected character @")], "@".toList) :=
  unexpected_char_error_repeats_forever 2

/-- C2: tokenizing `"create table tbl (a int primary key , b integer);"`
yields exactly the thirteen expected tokens in order with no error, and the
iterator then signals end of the sequence (the remaining input is empty and a
further pull yields no element). -/
theorem create_table_scenario :
    lexAll ("create table tbl (a int primary key , b integer);".toList) 20 =
      ([Except.ok (Token.Keyword Keyword.Create),
        Except.ok (Token.Keyword Keyword.Table),
        Except.ok (Token.Ident "tbl"),
        Except.ok Token.OpenParen,
        Except.ok (Token.Ident "a"),
        Except.ok (Token.Keyword Keyword.Int4),
        Except.ok (Token.Keyword Keyword.Primary),
        Except.ok (Token.Keyword Keyword.Key),
        Except.ok Token.Comma,
        Except.ok (Token.Ident "b"),
        Except.ok (Token.Keyword Keyword.Int4),
        Except.ok Token.CloseParen,
        Except.ok Token.Semicolon], []) ∧
    lexerNext [] = (none, []) := by
  exact ⟨rfl, rfl⟩

theorem lexerNext_unrecognized (s rest : List Char) (c : Char)
    (hw : erase_whitespace s = c :: rest)
    (hq : c ≠ '\'') (hd : c.isDigit = false) (ha : isAlphabeticRust c = false)
    (hsym : symbolToken c = none) :
    lexerNext s =
      (some (Except.error (Error.Parse ("[Lexer] Unexpected character " ++ c.toString))),
        c :: rest) := by
  simp [lexerNext, scan, hw, hq, hd, ha, scan_symbol, next_if_token, hsym]

/-- C3: when the first non-whitespace character matches no scanning rule
(it is not a quote, not an ASCII digit, not alphabetic and not one of the
eight punctuation characters), the pull yields the `Unexpected character`
parse error carrying that character in its message, and the character is not
consumed (the remaining input still starts with it). The alphabetic
classifier of the model covers the ASCII range, hence the ASCII bound on the
offending character. -/
theorem unexpected_char_not_consumed (s rest : List Char) (c : Char)
    (_hascii : c.toNat < 128)
    (hw : erase_whitespace s = c :: rest)
    (hq : c ≠ '\'') (hd : c.isDigit = false) (ha : isAlphabeticRust c = false)
    (hsym : symbolToken c = none) :
    lexerNext s =
      (some (Except.error (Error.Parse ("[Lexer] Unexpected character " ++ c.toString))),
        c :: rest) :=
  lexerNext_unrecognized s rest c hw hq hd ha hsym

theorem unexpected_char_not_consumed_witness :
    lexerNext ("@".toList) =
      (some (Except.error (Error.Parse "[Lexer] Unexpected character @")), ['@']) :=
  unexpected_char_not_consumed ("@".toList) [] '@' (by decide) rfl (by decide) (by decide)
    (by decide) (by decide)

/-- C9: an underscore can never start a lexeme: when the first non-whitespace
character is `'_'`, the pull yields the `Unexpected character _` error and
does not consume the underscore, while an underscore after an alphabetic
start is consumed as an ordinary identifier continuation character
(`"a_b"` scans to `Ident "a_b"`). -/
theorem underscore_rejected_at_start (s rest : List Char)
    (hw : erase_whitespace s = '_' :: rest) :
    lexerNext s =
      (some (Except.error (Error.Parse "[Lexer] Unexpected character _")), '_' :: rest)
    ∧ scan_ident ("a_b".toList) = (some (Token.Ident "a_b"), []) :=
  ⟨lexerNext_unrecognized s rest '_' hw (by decide) (by decide) (by decide) (by decide), rfl⟩

theorem underscore_rejected_at_start_witness :
    lexerNext ("_".toList) =
      (some (Except.error (Error.Parse "[Lexer] Unexpected character _")), ['_']) :=
  (underscore_rejected_at_start ("_".toList) [] rfl).1

theorem scan_string_body_unterminated (l : List Char) (h : '\'' ∉ l) :
    scan_string_body l = Except.error (Error.Parse "[Lexer] Unexpected end of string") := by
  induction l with
  | nil => rfl
  | cons c rest ih =>
    have hc : ¬ c = '\'' := fun e => h (by rw [e]; exact List.mem_cons_self _ _)
    have hr : '\'' ∉ rest := fun hm => h (List.mem_cons_of_mem c hm)
    simp [scan_string_body, hc, ih hr]

/-- C4: an opening quote with no later closing quote makes the string scan
fail with the `Unexpected end of string` parse error (the unterminated-string
classification) instead of producing a token; the cursor is exhausted. -/
theorem unterminated_string_fails (rest : List Char) (h : '\'' ∉ rest) :
    scan_string ('\'' :: rest) =
      (Except.error (Error.Parse "[Lexer] Unexpected end of string"), []) := by
  simp [scan_string, next_if, scan_string_body_unterminated rest h]

theorem unterminated_string_fails_witness :
    scan_string ("'abc".toList) =
      (Except.error (Error.Parse "[Lexer] Unexpected end of string"), []) :=
  unterminated_string_fails ("abc".toList) (by decide)

theorem scan_string_body_closed (v rest : List Char) (h : '\'' ∉ v) :
    scan_string_body (v ++ '\'' :: rest) = Except.ok (v, rest) := by
  induction v with
  | nil => rfl
  | cons c t ih =>
    have hc : ¬ c = '\'' := fun e => h (by rw [e]; exact List.mem_cons_self _ _)
    have ht : '\'' ∉ t := fun hm => h (List.mem_cons_of_mem c hm)
    simp [scan_string_body, hc, ih ht]

/-- C7: a string token's text is exactly the characters strictly between the
opening quote and the first subsequent quote — no escapes, and the quotes
never appear in the text; `"'hello'"` yields `String "hello"`, and in
`"'it''s'"` the first string token is `String "it"` (the stream then
continues with `String "s"`). -/
theorem string_contents_between_quotes :
    (∀ v rest : List Char, '\'' ∉ v →
      scan_string ('\'' :: (v ++ '\'' :: rest)) =
        (Except.ok (some (Token.String (String.mk v))), rest))
    ∧ lexerNext ("'hello'".toList) = (some (Except.ok (Token.String "hello")), [])
    ∧ lexAll ("'it''s'".toList) 3 =
        ([Except.ok (Token.String "it"), Except.ok (Token.String "s")], []) := by
  refine ⟨?_, rfl, rfl⟩
  intro v rest h
  simp [scan_string, next_if, scan_string_body_closed v rest h]

theorem string_contents_between_quotes_witness :
    scan_string ("'hello'".toList) =
      (Except.ok (some (Token.String (String.mk ("hello".toList)))), []) :=
  string_contents_between_quotes.1 ("hello".toList) [] (by decide)

theorem scan_number_eq (c : Char) (s : List Char) (h : c.isDigit = true) :
    scan_number (c :: s) =
      if (s.dropWhile Char.isDigit).head? = some '.' then
        (some (Token.Number (String.mk ((c :: s.takeWhile Char.isDigit) ++
            '.' :: (s.dropWhile Char.isDigit).tail.takeWhile Char.isDigit))),
          (s.dropWhile Char.isDigit).tail.dropWhile Char.isDigit)
      else
        (some (Token.Number (String.mk (c :: s.takeWhile Char.isDigit))),
          s.dropWhile Char.isDigit) := by
  unfold scan_number next_while
  rw [next_while_chars_eq, List.takeWhile_cons_of_pos h, List.dropWhile_cons_of_pos h]
  rcases hD : s.dropWhile Char.isDigit with _ | ⟨d, t⟩
  · simp [next_if]
  · by_cases hdot : d = '.'
    · subst hdot
      simp [next_if, next_while_chars_eq, String.push]
      show String.mk ((c :: (List.takeWhile Char.isDigit s ++ ['.'])) ++
          List.takeWhile Char.isDigit t) =
        String.mk (c :: (List.takeWhile Char.isDigit s ++ ('.' :: List.takeWhile Char.isDigit t)))
      exact congrArg String.mk (by simp)
    · simp [next_if, hdot]

/-- C5: a number scan on an input starting with an ASCII digit consumes the
maximal run of digits; if a dot immediately follows it also consumes the dot
and the following (possibly empty) run of digits; the resulting `Number`
token's text is exactly the consumed prefix of the input, and the three spec
examples `"123"`, `"12.5"`, `"12."` scan as stated. -/
theorem number_scan_digits_dot_digits (c : Char) (s : List Char) (h : c.isDigit = true) :
    (scan_number (c :: s) =
      if (((c :: s).dropWhile Char.isDigit).head? = some '.') then
        (some (Token.Number (String.mk ((c :: s).takeWhile Char.isDigit ++
            '.' :: ((c :: s).dropWhile Char.isDigit).tail.takeWhile Char.isDigit))),
          ((c :: s).dropWhile Char.isDigit).tail.dropWhile Char.isDigit)
      else
        (some (Token.Number (String.mk ((c :: s).takeWhile Char.isDigit))),
          (c :: s).dropWhile Char.isDigit))
    ∧ (∀ t s1, scan_number (c :: s) = (some (Token.Number t), s1) → t.data ++ s1 = c :: s)
    ∧ scan_number ("123".toList) = (some (Token.Number "123"), [])
    ∧ scan_number ("12.5".toList) = (some (Token.Number "12.5"), [])
    ∧ scan_number ("12.".toList) = (some (Token.Number "12."), []) := by
  have heq := scan_number_eq c s h
  refine ⟨?_, ?_, rfl, rfl, rfl⟩
  · rw [List.takeWhile_cons_of_pos h, List.dropWhile_cons_of_pos h]
    exact heq
  · intro t s1 hts
    rw [heq] at hts
    by_cases hc : (s.dropWhile Char.isDigit).head? = some '.'
    · rw [if_pos hc] at hts
      obtain ⟨t2, hD⟩ : ∃ t2, s.dropWhile Char.isDigit = '.' :: t2 := by
        cases hDD : s.dropWhile Char.isDigit with
        | nil => rw [hDD] at hc; simp at hc
        | cons d t2 =>
          rw [hDD] at hc
          simp only [List.head?_cons, Option.some.injEq] at hc
          exact ⟨t2, by rw [hc]⟩
      rw [hD] at hts
      simp only [List.tail_cons, Prod.mk.injEq, Option.some.injEq,
        Token.Number.injEq] at hts
      obtain ⟨h1, h2⟩ := hts
      rw [← h1, ← h2]
      show (c :: (List.takeWhile Char.isDigit s ++ ('.' :: List.takeWhile Char.isDigit t2))) ++
          List.dropWhile Char.isDigit t2 = c :: s
      rw [List.cons_append, List.append_assoc, List.cons_append,
        List.takeWhile_append_dropWhile, ← hD, List.takeWhile_append_dropWhile]
    · rw [if_neg hc] at hts
      simp only [Prod.mk.injEq, Option.some.injEq, Token.Number.injEq] at hts
      obtain ⟨h1, h2⟩ := hts
      rw [← h1, ← h2]
      show (c :: List.takeWhile Char.isDigit s) ++ List.dropWhile Char.isDigit s = c :: s
      rw [List.cons_append, List.takeWhile_append_dropWhile]

theorem number_scan_digits_dot_digits_witness :
    ('1').isDigit = true ∧ scan_number ("12.5".toList) = (some (Token.Number "12.5"), []) :=
  ⟨rfl, (number_scan_digits_dot_digits '1' ("2.5".toList) rfl).2.2.2.1⟩

/-- C6: keyword lookup is case-insensitive (it depends only on the uppercased
lexeme), every lexeme the table does not contain becomes an `Ident` with the
lowercased text, `"CREATE"`, `"create"` and `"Create"` all scan to
`Keyword Create`, both `"int"` and `"integer"` scan to `Keyword Int4`, and
`"tbl1"` scans to `Ident "tbl1"`. -/
theorem keyword_case_insensitive_ident_lowercased :
    (∀ s1 s2 : String, strToUpper s1 = strToUpper s2 →
        Keyword.fromStr s1 = Keyword.fromStr s2)
    ∧ (∀ v : String, Keyword.fromStr v = none →
        identOrKeyword v = Token.Ident (strToLower v))
    ∧ scan_ident ("CREATE".toList) = (some (Token.Keyword Keyword.Create), [])
    ∧ scan_ident ("create".toList) = (some (Token.Keyword Keyword.Create), [])
    ∧ scan_ident ("Create".toList) = (some (Token.Keyword Keyword.Create), [])
    ∧ scan_ident ("int".toList) = (some (Token.Keyword Keyword.Int4), [])
    ∧ scan_ident ("integer".toList) = (some (Token.Keyword Keyword.Int4), [])
    ∧ scan_ident ("tbl1".toList) = (some (Token.Ident "tbl1"), []) := by
  refine ⟨?_, ?_, rfl, rfl, rfl, rfl, rfl, rfl⟩
  · intro s1 s2 hu
    unfold Keyword.fromStr
    rw [hu]
  · intro v hv
    unfold identOrKeyword
    rw [hv]

theorem keyword_case_insensitive_ident_lowercased_witness :
    Keyword.fromStr "TBL1" = Keyword.fromStr "tbl1"
    ∧ identOrKeyword "tbl1" = Token.Ident (strToLower "tbl1") :=
  ⟨keyword_case_insensitive_ident_lowercased.1 "TBL1" "tbl1" rfl,
   keyword_case_insensitive_ident_lowercased.2.1 "tbl1" rfl⟩

theorem lexerNext_symbol (s rest : List Char) (c : Char) (t : Token)
    (hw : erase_whitespace s = c :: rest) (ht : symbolToken c = some t)
    (hq : c ≠ '\'') (hd : c.isDigit = false) (ha : isAlphabeticRust c = false) :
    lexerNext s = (some (Except.ok t), rest) := by
  simp [lexerNext, scan, hw, hq, hd, ha, scan_symbol, next_if_token, ht]

/-- C8: when the next non-whitespace character is one of the eight
punctuation characters, the pull yields exactly the dedicated singleton token
and consumes exactly that one character (the remaining input is what followed
it). -/
theorem punctuation_singletons (s rest : List Char) :
    (erase_whitespace s = '*' :: rest → lexerNext s = (some (Except.ok Token.Asterisk), rest))
    ∧ (erase_whitespace s = '(' :: rest → lexerNext s = (some (Except.ok Token.OpenParen), rest))
    ∧ (erase_whitespace s = ')' :: rest → lexerNext s = (some (Except.ok Token.CloseParen), rest))
    ∧ (erase_whitespace s = ',' :: rest → lexerNext s = (some (Except.ok Token.Comma), rest))
    ∧ (erase_whitespace s = ';' :: rest → lexerNext s = (some (Except.ok Token.Semicolon), rest))
    ∧ (erase_whitespace s = '+' :: rest → lexerNext s = (some (Except.ok Token.Plus), rest))
    ∧ (erase_whitespace s = '-' :: rest → lexerNext s = (some (Except.ok Token.Minus), rest))
    ∧ (erase_whitespace s = '/' :: rest → lexerNext s = (some (Except.ok Token.Slash), rest)) := by
  refine ⟨?_, ?_, ?_, ?_, ?_, ?_, ?_, ?_⟩ <;>
    exact fun hw =>
      lexerNext_symbol s rest _ _ hw (by decide) (by decide) (by decide) (by decide)

theorem punctuation_singletons_witness :
    lexerNext ("*".toList) = (some (Except.ok Token.Asterisk), []) :=
  (punctuation_singletons ("*".toList) []).1 rfl

theorem scan_ident_eq (c : Char) (s : List Char) (h : isAlphabeticRust c = true) :
    scan_ident (c :: s) =
      (some (identOrKeyword (String.mk
          (c :: s.takeWhile (fun x => isAlphanumericRust x || x = '_')))),
        s.dropWhile (fun x => isAlphanumericRust x || x = '_')) := by
  simp [scan_ident, next_if, h, next_while_chars_eq]

theorem scan_remaining (s rest : List Char) (c : Char)
    (hw : erase_whitespace s = c :: rest) :
    (∃ t s2, scan s = (Except.ok (some t), s2))
    ∨ (∃ e s2, scan s = (Except.error e, s2))
    ∨ scan s = (Except.ok none, c :: rest) := by
  by_cases hq : c = '\''
  · subst hq
    have hs : scan s = scan_string ('\'' :: rest) := by
      simp [scan, hw]
    cases hb : scan_string_body rest with
    | ok vr =>
      exact Or.inl ⟨Token.String (String.mk vr.1), vr.2, by
        simp [hs, scan_string, next_if, hb]⟩
    | error e =>
      exact Or.inr (Or.inl ⟨e, [], by simp [hs, scan_string, next_if, hb]⟩)
  · by_cases hd : c.isDigit
    · left
      have hnum : ∃ t s2, scan_number (c :: rest) = (some t, s2) := by
        have hn := scan_number_eq c rest hd
        by_cases hdot : (rest.dropWhile Char.isDigit).head? = some '.'
        · rw [if_pos hdot] at hn
          exact ⟨_, _, hn⟩
        · rw [if_neg hdot] at hn
          exact ⟨_, _, hn⟩
      obtain ⟨t, s2, hn⟩ := hnum
      have hscan : scan s = (Except.ok (scan_number (c :: rest)).1, (scan_number (c :: rest)).2) := by
        simp [scan, hw, hq, hd]
      rw [hn] at hscan
      exact ⟨t, s2, hscan⟩
    · by_cases ha : isAlphabeticRust c
      · left
        have hscan : scan s = (Except.ok (scan_ident (c :: rest)).1, (scan_ident (c :: rest)).2) := by
          simp [scan, hw, hq, hd, ha]
        rw [scan_ident_eq c rest ha] at hscan
        exact ⟨_, _, hscan⟩
      · cases ht : symbolToken c with
        | some t =>
          exact Or.inl ⟨t, rest, by
            simp [scan, hw, hq, hd, ha, scan_symbol, next_if_token, ht]⟩
        | none =>
          exact Or.inr (Or.inr (by
            simp [scan, hw, hq, hd, ha, scan_symbol, next_if_token, ht]))

theorem lexerNext_fst_isSome (s rest : List Char) (c : Char)
    (hw : erase_whitespace s = c :: rest) :
    (lexerNext s).1.isSome = true := by
  rcases scan_remaining s rest c hw with ⟨t, s2, h⟩ | ⟨e, s2, h⟩ | h <;>
    simp [lexerNext, h]

/-- C10: end of input is a clean and permanent stop: when whitespace-skipping
exhausts the source the pull yields no element (not an error) with an empty
remaining input, and whenever a pull yields no element the remaining input is
empty and the next pull again yields no element — the exhausted state never
changes. -/
theorem end_of_input_permanent (s s1 : List Char) :
    (erase_whitespace s = [] → lexerNext s = (none, []))
    ∧ (lexerNext s = (none, s1) → s1 = [] ∧ lexerNext s1 = (none, s1)) := by
  constructor
  · intro h
    simp [lexerNext, scan, h]
  · intro h
    cases hw : erase_whitespace s with
    | nil =>
      have h0 : lexerNext s = (none, []) := by simp [lexerNext, scan, hw]
      rw [h0] at h
      obtain ⟨-, h2⟩ := Prod.mk.injEq .. ▸ h
      rw [← h2]
      exact ⟨rfl, rfl⟩
    | cons c rest =>
      have hs := lexerNext_fst_isSome s rest c hw
      rw [h] at hs
      simp at hs

theorem end_of_input_permanent_witness :
    lexerNext ("  ".toList) = (none, []) ∧ lexerNext ([] : List Char) = (none, []) :=
  ⟨(end_of_input_permanent ("  ".toList) []).1 rfl,
   ((end_of_input_permanent [] []).2 rfl).2⟩

end RustSQL
